import Mathlib

/-
Verification of the Blackjack Q-learning program (src/Blackjack.py) against
its specification.  The program is shallowly embedded: the `Blackjack` class
becomes a structure, its methods become pure functions on that structure,
Python's `random` calls become explicit inputs, and the deck (which silently
reshuffles a fresh 52-card deck whenever it is exhausted, so a card is always
produced) becomes an inexhaustible stream of cards indexed by a cursor.
-/

set_option autoImplicit false

/-- The thirteen card ranks, the `value` field of the Python `Card` class. -/
inductive Rank where
  | r2 | r3 | r4 | r5 | r6 | r7 | r8 | r9 | r10
  | jack | queen | king | ace
deriving DecidableEq

/-- The four suits of the Python `Deck`. -/
inductive Suit where
  | hearts | diamonds | clubs | spades
deriving DecidableEq

/-- A playing card: `Card(suit, value)` in the source. -/
structure Card where
  suit : Suit
  value : Rank
deriving DecidableEq

/-- Points a rank contributes before Ace adjustment: `int(card.value)` for the
numeric ranks, 10 for Jack/Queen/King, 11 for an Ace (lines 72-78). -/
def cardPoints : Rank → ℕ
  | .r2 => 2
  | .r3 => 3
  | .r4 => 4
  | .r5 => 5
  | .r6 => 6
  | .r7 => 7
  | .r8 => 8
  | .r9 => 9
  | .r10 => 10
  | .jack => 10
  | .queen => 10
  | .king => 10
  | .ace => 11

/-- One iteration step of the `for card in hand` loop of `score_hand`
(lines 71-78): accumulates `(score, ace_count)`. -/
def score_step (acc : ℕ × ℕ) (c : Card) : ℕ × ℕ :=
  match c.value with
  | .jack => (acc.1 + 10, acc.2)
  | .queen => (acc.1 + 10, acc.2)
  | .king => (acc.1 + 10, acc.2)
  | .ace => (acc.1 + 11, acc.2 + 1)
  | v => (acc.1 + cardPoints v, acc.2)

/-- The `while score > 21 and ace_count` loop of `score_hand` (lines 79-81):
subtract 10 and use up one Ace while busting.  Structural recursion on the
Ace count, which the loop strictly decreases. -/
def reduceAces (score : ℕ) : ℕ → ℕ
  | 0 => score
  | a + 1 => if 21 < score then reduceAces (score - 10) a else score

/-- `Blackjack.score_hand` (lines 68-82): tally points and Aces over the hand,
then soft-reduce Aces while the total busts. -/
def score_hand (hand : List Card) : ℕ :=
  let t := hand.foldl score_step (0, 0)
  reduceAces t.1 t.2

/-- The learning state (line 44): player total, dealer's visible card rank
(`None` when the dealer hand is empty), and the per-card soft-Ace flag. -/
abbrev GState := ℕ × Option Rank × Bool

/-- Points of a rank with every Ace counted as 1: the minimum achievable hand
total.  Auxiliary (not in the source); it drives the termination arguments. -/
def hardPoints : Rank → ℕ
  | .ace => 1
  | r => cardPoints r

/-- Minimum total of a hand, counting each Ace as 1.  Auxiliary. -/
def hard_total (hand : List Card) : ℕ :=
  (hand.map fun c => hardPoints c.value).sum

theorem one_le_hardPoints (r : Rank) : 1 ≤ hardPoints r := by
  cases r <;> simp [hardPoints, cardPoints]

theorem hard_total_append (hand : List Card) (c : Card) :
    hard_total (hand ++ [c]) = hard_total hand + hardPoints c.value := by
  simp [hard_total]

theorem reduceAces_le (score a : ℕ) : score - 10 * a ≤ reduceAces score a := by
  induction a generalizing score with
  | zero => simp [reduceAces]
  | succ n ih =>
    simp only [reduceAces]
    by_cases h : 21 < score
    · simp only [h, if_true]
      have := ih (score - 10)
      omega
    · simp only [h, if_false]
      omega

theorem reduceAces_le_self (score a : ℕ) : reduceAces score a ≤ score := by
  induction a generalizing score with
  | zero => simp [reduceAces]
  | succ n ih =>
    simp only [reduceAces]
    by_cases h : 21 < score
    · simp only [h, if_true]
      have := ih (score - 10)
      omega
    · simp only [h, if_false]
      omega

theorem score_step_spec (acc : ℕ × ℕ) (c : Card) :
    score_step acc c =
      (acc.1 + cardPoints c.value, acc.2 + if c.value = Rank.ace then 1 else 0) := by
  cases c with
  | mk s v => cases v <;> simp [score_step, cardPoints]

theorem foldl_score_step (hand : List Card) (s a : ℕ) :
    hand.foldl score_step (s, a) =
      (s + (hand.map fun c => cardPoints c.value).sum,
       a + hand.countP fun c => decide (c.value = Rank.ace)) := by
  induction hand generalizing s a with
  | nil => simp
  | cons c t ih =>
    rw [List.foldl_cons, score_step_spec, ih]
    simp only [List.map_cons, List.sum_cons, List.countP_cons, Prod.mk.injEq]
    by_cases h : c.value = Rank.ace <;> simp [h] <;> omega

theorem score_hand_eq (hand : List Card) :
    score_hand hand =
      reduceAces ((hand.map fun c => cardPoints c.value).sum)
        (hand.countP fun c => decide (c.value = Rank.ace)) := by
  simp only [score_hand]
  rw [foldl_score_step]
  simp

theorem hard_total_cons (c : Card) (t : List Card) :
    hard_total (c :: t) = hardPoints c.value + hard_total t := by
  simp [hard_total]

theorem raw_eq_hard_add_aces (hand : List Card) :
    (hand.map fun c => cardPoints c.value).sum =
      hard_total hand + 10 * hand.countP fun c => decide (c.value = Rank.ace) := by
  induction hand with
  | nil => simp [hard_total]
  | cons c t ih =>
    rw [List.map_cons, List.sum_cons, hard_total_cons, List.countP_cons, ih]
    by_cases h : c.value = Rank.ace
    · rw [h]
      simp [hardPoints, cardPoints]
      omega
    · have hp : hardPoints c.value = cardPoints c.value := by
        cases hv : c.value <;> simp_all [hardPoints]
      simp [h, hp]
      omega

theorem hard_total_le_score_hand (hand : List Card) :
    hard_total hand ≤ score_hand hand := by
  rw [score_hand_eq, raw_eq_hard_add_aces]
  have := reduceAces_le
    (hard_total hand + 10 * hand.countP fun c => decide (c.value = Rank.ace))
    (hand.countP fun c => decide (c.value = Rank.ace))
  omega

/-- The `Blackjack` class (lines 29-38), with the implicit driver state of
`main` that the round loop reads and writes.  Python's `random` calls are
supplied from outside; the deck (`Deck`, lines 14-27) is modelled as an
inexhaustible stream `cards` with a cursor `idx`, because `Deck.deal` never
fails: when the card list is empty it silently rebuilds a fresh shuffled
52-card deck (line 26) before popping.  The extra field `updates` is pure
instrumentation: a log of the arguments of every `update_q_value` call. -/
structure Blackjack where
  cards : ℕ → Card
  idx : ℕ
  player_hand : List Card
  dealer_hand : List Card
  game_over : Bool
  alpha : ℚ
  gamma : ℚ
  epsilon : ℚ
  q_table : List (GState × (ℚ × ℚ))
  updates : List (GState × Fin 2 × ℚ × GState)

/-- `Blackjack.__init__` (lines 30-38): construction stores the three
parameters verbatim with no validation and starts with an empty Q-table.
No `ConfigurationError` (or any other check) exists in the source. -/
def Blackjack.init (cards : ℕ → Card) (alpha gamma epsilon : ℚ) : Blackjack :=
  { cards := cards
    idx := 0
    player_hand := []
    dealer_hand := []
    game_over := false
    alpha := alpha
    gamma := gamma
    epsilon := epsilon
    q_table := []
    updates := [] }

/-- Dictionary lookup in the Q-table, `self.q_table.get(state, ...)` /
`state in self.q_table`: the table is modelled as an association list. -/
def qlookup (s : GState) : List (GState × (ℚ × ℚ)) → Option (ℚ × ℚ)
  | [] => none
  | (k, v) :: t => if k = s then some v else qlookup s t

/-- Dictionary assignment `self.q_table[state] = v` for a key already present:
replace the value at the key. -/
def qset (s : GState) (v : ℚ × ℚ) : List (GState × (ℚ × ℚ)) → List (GState × (ℚ × ℚ))
  | [] => []
  | (k, w) :: t => if k = s then (k, v) :: t else (k, w) :: qset s v t

/-- `Blackjack.compute_state` (lines 40-44): player total, dealer's first
card rank (`None` for an empty dealer hand), and the soft-Ace flag
`any(card.value == 'Ace' for card in self.player_hand if
self.score_hand([card]) == 11)` — per-card, filtered on the single-card
score being 11. -/
def Blackjack.compute_state (g : Blackjack) : GState :=
  (score_hand g.player_hand,
   g.dealer_hand.head?.map Card.value,
   g.player_hand.any fun c => decide (score_hand [c] = 11) && decide (c.value = Rank.ace))

/-- `Blackjack.update_q_value` (lines 46-50).  The reads on lines 47-48 use
`dict.get` with default `[0, 0]` (no insertion); the write on line 50,
`self.q_table[state][action] = new_q`, requires `state` to be present —
when it is absent Python raises `KeyError`, modelled as `none`.  The reward
is an integer in the source but participates in float arithmetic, modelled
as `ℚ`. -/
def Blackjack.update_q_value (g : Blackjack) (state : GState) (action : Fin 2)
    (reward : ℚ) (next_state : GState) : Option Blackjack :=
  let cur := (qlookup state g.q_table).getD (0, 0)
  let current_q := if action = 0 then cur.1 else cur.2
  let nxt := (qlookup next_state g.q_table).getD (0, 0)
  let max_future_q := max nxt.1 nxt.2
  let new_q := current_q + g.alpha * (reward + g.gamma * max_future_q - current_q)
  match qlookup state g.q_table with
  | none => none
  | some qv =>
      some { g with
        q_table := qset state
          (if action = 0 then (new_q, qv.2) else (qv.1, new_q)) g.q_table
        updates := g.updates ++ [(state, action, reward, next_state)] }

/-- `Blackjack.ai_decision` (lines 52-62).  `r` models `random.random()`
(a draw from `[0,1)`) and `c` models `random.choice([0, 1])`.  The state is
lazily inserted with value `[0, 0]` when absent (lines 54-55); exploration
takes `c`, exploitation takes `np.argmax` over the two Q-values, which
returns the FIRST maximal index, i.e. 0 (Hit) on a tie; epsilon is then
multiplied by 0.995 = 199/200 unconditionally (line 60). -/
def Blackjack.ai_decision (g : Blackjack) (r : ℚ) (c : Fin 2) : Fin 2 × Blackjack :=
  let state := g.compute_state
  let qt := match qlookup state g.q_table with
    | none => (state, ((0 : ℚ), (0 : ℚ))) :: g.q_table
    | some _ => g.q_table
  let qv := (qlookup state qt).getD (0, 0)
  let action : Fin 2 := if r < g.epsilon then c else (if qv.1 < qv.2 then 1 else 0)
  (action, { g with q_table := qt, epsilon := g.epsilon * (199 / 200) })

/-- `Deck.deal` as used by the game (lines 24-27): produce the next card of
the stream and advance the cursor. -/
def Blackjack.deal (g : Blackjack) : Card × Blackjack :=
  (g.cards g.idx, { g with idx := g.idx + 1 })

/-- `Blackjack.deal_initial_cards` (lines 64-66): the player receives the
first two cards dealt, the dealer the next two; both hands are REPLACED
(not appended to). -/
def Blackjack.deal_initial_cards (g : Blackjack) : Blackjack :=
  { g with
    idx := g.idx + 4
    player_hand := [g.cards g.idx, g.cards (g.idx + 1)]
    dealer_hand := [g.cards (g.idx + 2), g.cards (g.idx + 3)] }

/-- `Blackjack.player_hit` (lines 84-87): deal one card to the player and
set `game_over` when the new total busts.  No state-machine check guards
this: it appends a card whatever the current value of `game_over`. -/
def Blackjack.player_hit (g : Blackjack) : Blackjack :=
  let ph := g.player_hand ++ [g.cards g.idx]
  { g with
    idx := g.idx + 1
    player_hand := ph
    game_over := if 21 < score_hand ph then true else g.game_over }

/-- `Blackjack.dealer_turn` (lines 89-92): deal cards to the dealer while
the dealer total is below 17, then mark the round over.  Terminates because
each dealt card raises the dealer hand's minimum (Aces-as-1) total by at
least 1, and the card source never runs dry (the deck refills). -/
def Blackjack.dealer_turn (g : Blackjack) : Blackjack :=
  if score_hand g.dealer_hand < 17 then
    Blackjack.dealer_turn
      { g with idx := g.idx + 1, dealer_hand := g.dealer_hand ++ [g.cards g.idx] }
  else
    { g with game_over := true }
termination_by 17 - hard_total g.dealer_hand
decreasing_by
  have h1 := hard_total_le_score_hand g.dealer_hand
  have h2 := hard_total_append g.dealer_hand (g.cards g.idx)
  have h3 := one_le_hardPoints (g.cards g.idx).value
  omega

/-- `Blackjack.get_winner` restated on the two final scores (lines 94-105);
the diagnostic string is kept alongside the integer reward. -/
def get_winner_scores (player_score dealer_score : ℕ) : ℤ × String :=
  if 21 < player_score then (-10, "Player busts! Dealer wins.")
  else if 21 < dealer_score ∨ dealer_score < player_score then (2, "Player wins!")
  else if player_score < dealer_score then (-1, "Dealer wins.")
  else (0, "It is a tie.")

/-- `Blackjack.get_winner` (lines 94-105): score both hands and branch.  It
is a total function of the current hands — nothing checks that the round is
Terminal. -/
def Blackjack.get_winner (g : Blackjack) : ℤ × String :=
  get_winner_scores (score_hand g.player_hand) (score_hand g.dealer_hand)

theorem ai_decision_player_hand (g : Blackjack) (r : ℚ) (c : Fin 2) :
    (g.ai_decision r c).2.player_hand = g.player_hand := by
  simp only [Blackjack.ai_decision]

theorem player_hit_player_hand (g : Blackjack) :
    g.player_hit.player_hand = g.player_hand ++ [g.cards g.idx] := by
  simp only [Blackjack.player_hit]

/-- The `while not self.game_over` loop of `main` (lines 192-202), modelled
for an entry state with `game_over = False` (which `main` guarantees: the
flag is reset at line 227 and dealing does not set it).  Each iteration asks
`ai_decision` for an action, fed by the random streams `rs` (the
`random.random()` draws) and `cs` (the `random.choice` draws), indexed by
the running decision counter `n`.  A Hit that busts breaks out (line 199,
equivalently `player_hit` has set `game_over`); a non-busting Hit loops; a
Stand runs the dealer and ends the loop.  Returned besides the final state:
the LAST action taken (the value the `action` variable holds after the
loop, which line 226 feeds to the update) and the log of (observed state,
action) pairs of every decision, in order.  Terminates because every hit
raises the player hand's minimum (Aces-as-1) total by at least 1, and the
loop stops as soon as the total busts. -/
def Blackjack.play_loop (g : Blackjack) (rs : ℕ → ℚ) (cs : ℕ → Fin 2) (n : ℕ) :
    Blackjack × Fin 2 × List (GState × Fin 2) :=
  let st := g.compute_state
  let p := g.ai_decision (rs n) (cs n)
  if p.1 = 0 then
    if 21 < score_hand p.2.player_hit.player_hand then (p.2.player_hit, p.1, [(st, p.1)])
    else
      let rest := Blackjack.play_loop p.2.player_hit rs cs (n + 1)
      (rest.1, rest.2.1, (st, p.1) :: rest.2.2)
  else
    (p.2.dealer_turn, p.1, [(st, p.1)])
termination_by 22 - hard_total g.player_hand
decreasing_by
  unfold p at *
  simp only [Blackjack.ai_decision, Blackjack.player_hit] at *
  have h2 := hard_total_append g.player_hand (g.cards g.idx)
  have h3 := one_le_hardPoints (g.cards g.idx).value
  have h4 := hard_total_le_score_hand (g.player_hand ++ [g.cards g.idx])
  omega

/-- One round of `main` (lines 187-227): deal, remember `prev_state`
(line 191, computed right after the deal, BEFORE any action), run the
decision loop, then compute `next_state` and the reward and perform the
single `update_q_value` call of the round (line 226) with
`(prev_state, action, reward, next_state)` where `action` is the loop's
last action.  The result is `none` exactly when that update would raise
`KeyError` (it never does: the first `ai_decision` call inserts
`prev_state`). -/
def Blackjack.play_round (g : Blackjack) (rs : ℕ → ℚ) (cs : ℕ → Fin 2) :
    Option (Blackjack × Fin 2 × List (GState × Fin 2)) :=
  let g1 := g.deal_initial_cards
  let prev_state := g1.compute_state
  let res := g1.play_loop rs cs 0
  let next_state := res.1.compute_state
  let reward := (res.1.get_winner).1
  (res.1.update_q_value prev_state res.2.1 (reward : ℚ) next_state).map
    fun g2 => (g2, res.2.1, res.2.2)

theorem dealer_turn_spec (g : Blackjack) :
    17 ≤ score_hand g.dealer_turn.dealer_hand ∧ g.dealer_turn.game_over = true ∧
      g.dealer_turn.player_hand = g.player_hand ∧
      g.dealer_turn.q_table = g.q_table ∧
      g.dealer_turn.updates = g.updates ∧
      g.dealer_turn.epsilon = g.epsilon := by
  induction g using Blackjack.dealer_turn.induct with
  | case1 g h ih =>
    rw [Blackjack.dealer_turn]
    simpa [h] using ih
  | case2 g h =>
    rw [Blackjack.dealer_turn]
    simp [h]
    omega

theorem qset_of_absent (s : GState) (v : ℚ × ℚ) (t : List (GState × (ℚ × ℚ)))
    (h : qlookup s t = none) : qset s v t = t := by
  induction t with
  | nil => rfl
  | cons p r ih =>
    obtain ⟨k, w⟩ := p
    by_cases hk : k = s
    · simp [qlookup, hk] at h
    · simp only [qlookup, hk, if_false] at h
      simp [qset, hk, ih h]

theorem qlookup_qset_self (s : GState) (v : ℚ × ℚ) (t : List (GState × (ℚ × ℚ)))
    (h : (qlookup s t).isSome) : qlookup s (qset s v t) = some v := by
  induction t with
  | nil => simp [qlookup] at h
  | cons p r ih =>
    obtain ⟨k, w⟩ := p
    by_cases hk : k = s
    · simp [qset, qlookup, hk]
    · simp only [qlookup, hk, if_false] at h
      simp [qset, qlookup, hk, ih h]

theorem qlookup_qset_ne (s u : GState) (v : ℚ × ℚ) (t : List (GState × (ℚ × ℚ)))
    (h : u ≠ s) : qlookup u (qset s v t) = qlookup u t := by
  induction t with
  | nil => rfl
  | cons p r ih =>
    obtain ⟨k, w⟩ := p
    by_cases hk : k = s
    · have hsu : ¬(s = u) := fun hh => h hh.symm
      simp [qset, qlookup, hk, hsu]
    · simp only [qset, hk, if_false, qlookup]
      rw [ih]

theorem qlookup_qset_isSome (s u : GState) (v : ℚ × ℚ) (t : List (GState × (ℚ × ℚ))) :
    (qlookup u (qset s v t)).isSome = (qlookup u t).isSome := by
  by_cases hu : u = s
  · subst hu
    cases h : qlookup u t with
    | none => rw [qset_of_absent u v t h, h]
    | some w =>
      rw [qlookup_qset_self u v t (by rw [h]; rfl)]
      rfl
  · rw [qlookup_qset_ne s u v t hu]

theorem ai_decision_fields (g : Blackjack) (r : ℚ) (c : Fin 2) :
    (g.ai_decision r c).2.cards = g.cards ∧
    (g.ai_decision r c).2.idx = g.idx ∧
    (g.ai_decision r c).2.player_hand = g.player_hand ∧
    (g.ai_decision r c).2.dealer_hand = g.dealer_hand ∧
    (g.ai_decision r c).2.game_over = g.game_over ∧
    (g.ai_decision r c).2.alpha = g.alpha ∧
    (g.ai_decision r c).2.gamma = g.gamma ∧
    (g.ai_decision r c).2.updates = g.updates ∧
    (g.ai_decision r c).2.epsilon = g.epsilon * (199 / 200) := by
  simp [Blackjack.ai_decision]

theorem ai_decision_qtable_mono (g : Blackjack) (r : ℚ) (c : Fin 2) (s : GState)
    (h : (qlookup s g.q_table).isSome) :
    (qlookup s (g.ai_decision r c).2.q_table).isSome := by
  simp only [Blackjack.ai_decision]
  cases hq : qlookup g.compute_state g.q_table with
  | none =>
    simp only [hq, qlookup]
    by_cases he : g.compute_state = s <;> simp [he, h]
  | some v => simpa [hq] using h

theorem ai_decision_inserts (g : Blackjack) (r : ℚ) (c : Fin 2) :
    (qlookup g.compute_state (g.ai_decision r c).2.q_table).isSome := by
  simp only [Blackjack.ai_decision]
  cases hq : qlookup g.compute_state g.q_table with
  | none => simp [hq, qlookup]
  | some v => simp [hq]

theorem player_hit_fields (g : Blackjack) :
    g.player_hit.player_hand = g.player_hand ++ [g.cards g.idx] ∧
    g.player_hit.dealer_hand = g.dealer_hand ∧
    g.player_hit.q_table = g.q_table ∧
    g.player_hit.updates = g.updates ∧
    g.player_hit.epsilon = g.epsilon ∧
    g.player_hit.alpha = g.alpha ∧
    g.player_hit.gamma = g.gamma := by
  simp [Blackjack.player_hit]

theorem play_loop_spec (g : Blackjack) (rs : ℕ → ℚ) (cs : ℕ → Fin 2) (n : ℕ) :
    (∀ s, (qlookup s g.q_table).isSome →
        (qlookup s (g.play_loop rs cs n).1.q_table).isSome) ∧
    (qlookup g.compute_state (g.play_loop rs cs n).1.q_table).isSome ∧
    (g.play_loop rs cs n).1.updates = g.updates ∧
    (g.play_loop rs cs n).2.2.head?.map Prod.fst = some g.compute_state ∧
    (g.play_loop rs cs n).2.2.getLast?.map Prod.snd = some (g.play_loop rs cs n).2.1 := by
  induction g, rs, cs, n using Blackjack.play_loop.induct with
  | case1 g rs cs n p hact hbust =>
    unfold p at hact hbust
    rw [Blackjack.play_loop]
    simp only [hact, if_true, hbust, if_true]
    refine ⟨?_, ?_, ?_, by simp, by simp⟩
    · intro s hs
      rw [(player_hit_fields _).2.2.1]
      exact ai_decision_qtable_mono g _ _ s hs
    · rw [(player_hit_fields _).2.2.1]
      exact ai_decision_inserts g _ _
    · rw [(player_hit_fields _).2.2.2.1, (ai_decision_fields g _ _).2.2.2.2.2.2.2.1]
  | case2 g rs cs n p hact hbust ih =>
    unfold p at hact hbust ih
    rw [Blackjack.play_loop]
    simp only [hact, if_true, hbust, if_false]
    obtain ⟨ihmono, ihmem, ihupd, ihhead, ihlast⟩ := ih
    have hq : (g.ai_decision (rs n) (cs n)).2.player_hit.q_table
        = (g.ai_decision (rs n) (cs n)).2.q_table := (player_hit_fields _).2.2.1
    refine ⟨?_, ?_, ?_, by simp, ?_⟩
    · intro s hs
      exact ihmono s (by rw [hq]; exact ai_decision_qtable_mono g _ _ s hs)
    · exact ihmono _ (by rw [hq]; exact ai_decision_inserts g _ _)
    · rw [ihupd, (player_hit_fields _).2.2.2.1,
        (ai_decision_fields g _ _).2.2.2.2.2.2.2.1]
    · cases hl : ((g.ai_decision (rs n) (cs n)).2.player_hit.play_loop rs cs (n + 1)).2.2 with
      | nil => rw [hl] at ihlast; simp at ihlast
      | cons x t =>
        rw [hl] at ihlast
        simp only [List.getLast?_cons_cons]
        exact ihlast
  | case3 g rs cs n p hact =>
    unfold p at hact
    rw [Blackjack.play_loop]
    simp only [hact, if_false]
    refine ⟨?_, ?_, ?_, by simp, by simp⟩
    · intro s hs
      rw [(dealer_turn_spec _).2.2.2.1]
      exact ai_decision_qtable_mono g _ _ s hs
    · rw [(dealer_turn_spec _).2.2.2.1]
      exact ai_decision_inserts g _ _
    · rw [(dealer_turn_spec _).2.2.2.2.1, (ai_decision_fields g _ _).2.2.2.2.2.2.2.1]

theorem deal_initial_cards_fields (g : Blackjack) :
    g.deal_initial_cards.q_table = g.q_table ∧
    g.deal_initial_cards.updates = g.updates ∧
    g.deal_initial_cards.epsilon = g.epsilon ∧
    g.deal_initial_cards.alpha = g.alpha ∧
    g.deal_initial_cards.gamma = g.gamma ∧
    g.deal_initial_cards.game_over = g.game_over := by
  simp [Blackjack.deal_initial_cards]

theorem update_q_value_some (g : Blackjack) (s : GState) (a : Fin 2) (rw : ℚ)
    (ns : GState) (h : (qlookup s g.q_table).isSome) :
    ∃ g', g.update_q_value s a rw ns = some g' ∧
      g'.player_hand = g.player_hand ∧ g'.dealer_hand = g.dealer_hand ∧
      g'.updates = g.updates ++ [(s, a, rw, ns)] := by
  cases hq : qlookup s g.q_table with
  | none => rw [hq] at h; simp at h
  | some qv =>
    simp only [Blackjack.update_q_value, hq, Option.some.injEq]
    exact ⟨_, rfl, rfl, rfl, rfl⟩

theorem compute_state_eq_of (g g' : Blackjack) (hp : g'.player_hand = g.player_hand)
    (hd : g'.dealer_hand = g.dealer_hand) : g'.compute_state = g.compute_state := by
  simp [Blackjack.compute_state, hp, hd]

theorem get_winner_eq_of (g g' : Blackjack) (hp : g'.player_hand = g.player_hand)
    (hd : g'.dealer_hand = g.dealer_hand) : g'.get_winner = g.get_winner := by
  simp [Blackjack.get_winner, hp, hd]

/-- C1 (amended): in every round exactly one Q-table update is performed,
and — contrary to the claim as stated — its prior state is the state
observed immediately AFTER the initial deal (`prev_state`, computed at
line 191, before any action), not the state observed immediately before
the round's final action; the other arguments are as claimed: the state
observed after the final action, the round's reward, and the final action
taken. -/
theorem C1_single_update_uses_post_deal_state (g : Blackjack) (rs : ℕ → ℚ)
    (cs : ℕ → Fin 2) (hgo : g.game_over = false) (hupd : g.updates = []) :
    ∃ g' act decs, g.play_round rs cs = some (g', act, decs) ∧
      g'.updates = [(g.deal_initial_cards.compute_state, act,
        ((g'.get_winner.1 : ℤ) : ℚ), g'.compute_state)] ∧
      decs.head?.map Prod.fst = some g.deal_initial_cards.compute_state ∧
      decs.getLast?.map Prod.snd = some act := by
  have spec := play_loop_spec g.deal_initial_cards rs cs 0
  obtain ⟨g2, hg2, hp, hd, hu⟩ := update_q_value_some
    (g.deal_initial_cards.play_loop rs cs 0).1
    g.deal_initial_cards.compute_state
    (g.deal_initial_cards.play_loop rs cs 0).2.1
    (((g.deal_initial_cards.play_loop rs cs 0).1.get_winner.1 : ℤ) : ℚ)
    (g.deal_initial_cards.play_loop rs cs 0).1.compute_state
    spec.2.1
  refine ⟨g2, (g.deal_initial_cards.play_loop rs cs 0).2.1,
    (g.deal_initial_cards.play_loop rs cs 0).2.2, ?_, ?_, spec.2.2.2.1, spec.2.2.2.2⟩
  · simp only [Blackjack.play_round]
    rw [hg2]
    rfl
  · rw [hu, spec.2.2.1, (deal_initial_cards_fields g).2.1, hupd,
      get_winner_eq_of _ g2 hp hd, compute_state_eq_of _ g2 hp hd]
    simp

/-- Card stream for the concrete rounds: player is dealt 5,5; dealer 10,7;
then a 6 and 10s follow. -/
def cexCards : ℕ → Card := fun n =>
  if n = 0 then ⟨Suit.hearts, Rank.r5⟩
  else if n = 1 then ⟨Suit.spades, Rank.r5⟩
  else if n = 2 then ⟨Suit.hearts, Rank.r10⟩
  else if n = 3 then ⟨Suit.spades, Rank.r7⟩
  else if n = 4 then ⟨Suit.hearts, Rank.r6⟩
  else ⟨Suit.clubs, Rank.r10⟩

/-- A fresh game on that stream with the source's default parameters
(alpha 0.5, gamma 0.9, epsilon 1.0). -/
def cexG0 : Blackjack := Blackjack.init cexCards (1 / 2) (9 / 10) 1

/-- The game right after the initial deal of the concrete round: player 5,5
(total 10), dealer 10,7 (Ten visible). -/
def cexG1 : Blackjack := cexG0.deal_initial_cards

/-- The game after the first `ai_decision` call: state (10, Ten, false)
inserted into the Q-table, epsilon decayed once. -/
def cexG1d : Blackjack :=
  { cexG1 with
    q_table := [(((10 : ℕ), some Rank.r10, false), ((0 : ℚ), (0 : ℚ)))]
    epsilon := cexG1.epsilon * (199 / 200) }

/-- The game after the first decision (a Hit) has been applied: player
5,5,6 (total 16). -/
def cexG2 : Blackjack := cexG1d.player_hit

/-- The game after the second `ai_decision` call: state (16, Ten, false)
inserted, epsilon decayed again. -/
def cexG2d : Blackjack :=
  { cexG2 with
    q_table := (((16 : ℕ), some Rank.r10, false), ((0 : ℚ), (0 : ℚ))) :: cexG2.q_table
    epsilon := cexG2.epsilon * (199 / 200) }

/-- The game after the second decision (another Hit) has been applied:
player 5,5,6,10 (total 26, bust). -/
def cexG3 : Blackjack := cexG2d.player_hit

/-- The game after the round's single Q-update. -/
def cexG4 : Blackjack :=
  { cexG3 with
    q_table := [(((16 : ℕ), some Rank.r10, false), ((0 : ℚ), (0 : ℚ))),
                (((10 : ℕ), some Rank.r10, false),
                  ((0 : ℚ) + 1 / 2 * (((-10 : ℤ) : ℚ) + 9 / 10 * max 0 0 - 0), (0 : ℚ)))]
    updates := [(((10 : ℕ), some Rank.r10, false), (0 : Fin 2), ((-10 : ℤ) : ℚ),
                 ((26 : ℕ), some Rank.r10, false))] }

/-- C1 counterexample: on the concrete round in which the player is dealt
5,5 (state (10, Ten, no-Ace) after the deal), hits to 16 (state
(16, Ten, no-Ace)), and hits again to 26 (bust), the single Q-update of the
round uses prior state (10, Ten, false) — the state after the initial deal —
even though the state observed immediately before the final
(terminal-triggering) action was (16, Ten, false).  The decision log names
both observed states in order; the update log shows which one was credited. -/
theorem C1_counterexample :
    (Blackjack.play_round cexG0 (fun _ => 0) (fun _ => 0)).map
        (fun r => (r.1.updates, r.2.2)) =
      some ([(((10 : ℕ), some Rank.r10, false), (0 : Fin 2), ((-10 : ℤ) : ℚ),
              ((26 : ℕ), some Rank.r10, false))],
            [(((10 : ℕ), some Rank.r10, false), (0 : Fin 2)),
             (((16 : ℕ), some Rank.r10, false), (0 : Fin 2))]) ∧
    (((10 : ℕ), some Rank.r10, false) : GState) ≠ ((16 : ℕ), some Rank.r10, false) := by
  have hdec1 : cexG1.ai_decision 0 0 = ((0 : Fin 2), cexG1d) := rfl
  have hhit1 : cexG1d.player_hit = cexG2 := rfl
  have hlt2 : (0 : ℚ) < cexG2.epsilon := by
    rw [show cexG2.epsilon = 1 * (199 / 200) from rfl]
    norm_num
  have hdec2 : cexG2.ai_decision 0 0 = ((0 : Fin 2), cexG2d) := by
    simp only [Blackjack.ai_decision,
      show cexG2.compute_state = ((16 : ℕ), some Rank.r10, false) from rfl,
      show qlookup ((16 : ℕ), some Rank.r10, false) cexG2.q_table = none from rfl,
      if_pos hlt2]
    rfl
  have hhit2 : cexG2d.player_hit = cexG3 := rfl
  have hs2 : score_hand cexG2.player_hand = 16 := rfl
  have hs3 : score_hand cexG3.player_hand = 26 := rfl
  have hst1 : cexG1.compute_state = ((10 : ℕ), some Rank.r10, false) := rfl
  have hst2 : cexG2.compute_state = ((16 : ℕ), some Rank.r10, false) := rfl
  have hst3 : cexG3.compute_state = ((26 : ℕ), some Rank.r10, false) := rfl
  have hgw : cexG3.get_winner = (-10, "Player busts! Dealer wins.") := rfl
  have hupd : cexG3.update_q_value ((10 : ℕ), some Rank.r10, false) (0 : Fin 2)
      ((-10 : ℤ) : ℚ) ((26 : ℕ), some Rank.r10, false) = some cexG4 := rfl
  have eloop : cexG1.play_loop (fun _ => 0) (fun _ => 0) 0 =
      (cexG3, (0 : Fin 2),
        [(((10 : ℕ), some Rank.r10, false), (0 : Fin 2)),
         (((16 : ℕ), some Rank.r10, false), (0 : Fin 2))]) := by
    rw [Blackjack.play_loop]
    simp only [hdec1, hhit1]
    norm_num [hs2, hst1]
    rw [Blackjack.play_loop]
    simp only [hdec2, hhit2]
    norm_num [hs3, hst2]
  constructor
  · simp only [Blackjack.play_round, show cexG0.deal_initial_cards = cexG1 from rfl,
      eloop, hst1, hst3, hgw, hupd]
    rfl
  · decide

/-- Witness for C1: the amended single-update theorem applied to the
concrete fresh game (its round flag is down and its update log empty). -/
theorem C1_single_update_uses_post_deal_state_witness :
    ∃ g' act decs, cexG0.play_round (fun _ => 0) (fun _ => 0) = some (g', act, decs) ∧
      g'.updates = [(cexG0.deal_initial_cards.compute_state, act,
        ((g'.get_winner.1 : ℤ) : ℚ), g'.compute_state)] ∧
      decs.head?.map Prod.fst = some cexG0.deal_initial_cards.compute_state ∧
      decs.getLast?.map Prod.snd = some act :=
  C1_single_update_uses_post_deal_state cexG0 (fun _ => 0) (fun _ => 0) rfl rfl

/-- C2 (amended): the code performs no state-machine validation and defines
no InvalidTransition signal: `player_hit` invoked on a Terminal round
(game_over already true) silently deals a card anyway and leaves the round
Terminal, and `get_winner` is a total function that returns an outcome from
the current hands whether or not the round is Terminal. -/
theorem C2_wrong_state_calls_execute_silently (g h : Blackjack)
    (hg : g.game_over = true) (hh : h.game_over = false) :
    g.player_hit.player_hand = g.player_hand ++ [g.cards g.idx] ∧
    g.player_hit.game_over = true ∧
    h.get_winner = get_winner_scores (score_hand h.player_hand)
      (score_hand h.dealer_hand) := by
  refine ⟨(player_hit_fields g).1, ?_, rfl⟩
  simp [Blackjack.player_hit, hg]

/-- Witness for C2: `player_hit` on the concrete busted (Terminal) game and
`get_winner` on the concrete fresh (non-Terminal) game. -/
theorem C2_wrong_state_calls_execute_silently_witness :
    cexG3.player_hit.player_hand = cexG3.player_hand ++ [cexG3.cards cexG3.idx] ∧
    cexG3.player_hit.game_over = true ∧
    cexG1.get_winner = get_winner_scores (score_hand cexG1.player_hand)
      (score_hand cexG1.dealer_hand) :=
  C2_wrong_state_calls_execute_silently cexG3 cexG1 rfl rfl

/-- C2 counterexample: the concrete game cexG3 is Terminal (the player
busted at 26), yet calling the hit operation signals nothing: it silently
deals a fifth card to the player.  Likewise the outcome of the fresh,
non-Terminal game cexG1 is computed without any error being signalled. -/
theorem C2_counterexample :
    cexG3.game_over = true ∧
    cexG3.player_hand.length = 4 ∧
    cexG3.player_hit.player_hand.length = 5 ∧
    cexG1.game_over = false ∧
    cexG1.get_winner = (-1, "Dealer wins.") :=
  ⟨rfl, rfl, rfl, rfl, rfl⟩

/-- C3 (amended): construction never validates its parameters — the program
defines no ConfigurationError: `Blackjack.__init__` accepts any alpha,
gamma and epsilon, valid or not, and stores them verbatim; in particular a
validly configured agent is also constructed without error. -/
theorem C3_construction_never_validates (cards : ℕ → Card) (alpha gamma epsilon : ℚ) :
    (Blackjack.init cards alpha gamma epsilon).alpha = alpha ∧
    (Blackjack.init cards alpha gamma epsilon).gamma = gamma ∧
    (Blackjack.init cards alpha gamma epsilon).epsilon = epsilon ∧
    (Blackjack.init cards alpha gamma epsilon).q_table = [] :=
  ⟨rfl, rfl, rfl, rfl⟩

/-- C3 counterexample: constructing with alpha = 2 (outside (0,1]),
gamma = -1 (outside [0,1]) and epsilon = 3/2 (not a probability) is not
rejected: construction succeeds and the agent carries exactly those values,
so no ConfigurationError is raised. -/
theorem C3_counterexample :
    (Blackjack.init cexCards 2 (-1) (3 / 2)).alpha = 2 ∧
    (Blackjack.init cexCards 2 (-1) (3 / 2)).gamma = -1 ∧
    (Blackjack.init cexCards 2 (-1) (3 / 2)).epsilon = 3 / 2 :=
  ⟨rfl, rfl, rfl⟩

/-- C4 counterexample to the claim's termination justification: dealing a 9
to a dealer hand of Ace+5 — which scores 16 < 17, so the dealer deals in
exactly this situation — LOWERS the hand score from 16 to 15, because the
Ace soft-reduces; a dealt card therefore does not always add at least 1 to
the hand score. -/
theorem C4_counterexample :
    score_hand [⟨Suit.hearts, Rank.ace⟩, ⟨Suit.clubs, Rank.r5⟩] = 16 ∧
    score_hand [⟨Suit.hearts, Rank.ace⟩, ⟨Suit.clubs, Rank.r5⟩,
      ⟨Suit.diamonds, Rank.r9⟩] = 15 :=
  ⟨rfl, rfl⟩

/-- C4 (amended): for every card stream (deck contents, with refill on
exhaustion) and every dealer hand, the dealer's turn terminates, and at
termination the dealer's score is at least 17 (in [17,21] or busting above
21), never below 17.  Termination holds because every dealt card adds at
least 1 to the hand's MINIMUM total (each Ace counted as 1) — not
necessarily to the score itself — and the deck refills when exhausted. -/
theorem C4_dealer_turn_terminates_at_17 (g : Blackjack) :
    17 ≤ score_hand g.dealer_turn.dealer_hand ∧
    g.dealer_turn.game_over = true ∧
    (∀ (hand : List Card) (c : Card),
      hard_total hand + 1 ≤ hard_total (hand ++ [c]) ∧ hard_total hand ≤ score_hand hand) := by
  refine ⟨(dealer_turn_spec g).1, (dealer_turn_spec g).2.1, fun hand c => ⟨?_, hard_total_le_score_hand hand⟩⟩
  rw [hard_total_append]
  have := one_le_hardPoints c.value
  omega

/-- The reference hand evaluation, following the specification word by word:
sum the numeric ranks over the hand (face cards worth 10, each Ace initially
11), count the Aces, then while the total exceeds 21 and a counted Ace
remains, subtract 10 and give up one counted Ace. -/
def score_spec (hand : List Card) : ℕ :=
  reduceAces ((hand.map fun c => cardPoints c.value).sum)
    (hand.countP fun c => decide (c.value = Rank.ace))

/-- C6: for every hand (any length, including empty) the program's
`score_hand` equals the reference evaluation, and the three reference
examples hold: Ace,Ace,9 scores 21 (both Aces soft-reduced), King,Queen
scores 20, and the empty hand scores 0. -/
theorem C6_score_matches_reference :
    (∀ hand : List Card, score_hand hand = score_spec hand) ∧
    score_hand [⟨Suit.hearts, Rank.ace⟩, ⟨Suit.spades, Rank.ace⟩,
      ⟨Suit.clubs, Rank.r9⟩] = 21 ∧
    score_hand [⟨Suit.hearts, Rank.king⟩, ⟨Suit.spades, Rank.queen⟩] = 20 ∧
    score_hand ([] : List Card) = 0 := by
  refine ⟨fun hand => ?_, rfl, rfl, rfl⟩
  rw [score_hand_eq]
  rfl

theorem single_card_scores_eleven_iff (c : Card) :
    (decide (score_hand [c] = 11) && decide (c.value = Rank.ace)) =
      decide (c.value = Rank.ace) := by
  obtain ⟨s, v⟩ := c
  cases v <;> rfl

theorem has_ace_any (hand : List Card) :
    (hand.any fun c => decide (score_hand [c] = 11) && decide (c.value = Rank.ace)) =
      hand.any fun c => decide (c.value = Rank.ace) := by
  induction hand with
  | nil => rfl
  | cons c t ih => simp [List.any_cons, ih, single_card_scores_eleven_iff]

/-- C10: the learning state's soft-Ace component is true exactly when the
player hand contains at least one Ace, because a lone Ace always scores 11
so the per-card filter never excludes one; in particular the flag is true
for the hard hand Ace,9,9, which scores 19 with its Ace counted as 1. -/
theorem C10_soft_ace_flag_iff_has_ace :
    (∀ g : Blackjack, (g.compute_state).2.2 =
      g.player_hand.any fun c => decide (c.value = Rank.ace)) ∧
    score_hand [⟨Suit.hearts, Rank.ace⟩, ⟨Suit.clubs, Rank.r9⟩,
      ⟨Suit.spades, Rank.r9⟩] = 19 ∧
    (Blackjack.compute_state { cexG0 with player_hand :=
      [⟨Suit.hearts, Rank.ace⟩, ⟨Suit.clubs, Rank.r9⟩, ⟨Suit.spades, Rank.r9⟩] }).2.2
      = true := by
  refine ⟨fun g => ?_, rfl, rfl⟩
  simp only [Blackjack.compute_state]
  exact has_ace_any g.player_hand

/-- The guard of the i-th outcome branch of `get_winner` (lines 98-105),
including the negations of the earlier guards that the if/elif priority
imposes. -/
def rewardBranch (i : Fin 4) (p d : ℕ) : Prop :=
  match i with
  | 0 => 21 < p
  | 1 => p ≤ 21 ∧ (21 < d ∨ d < p)
  | 2 => p ≤ 21 ∧ d ≤ 21 ∧ p ≤ d ∧ p < d
  | 3 => p ≤ 21 ∧ d ≤ 21 ∧ p ≤ d ∧ ¬p < d

/-- The reward each branch returns. -/
def branchReward : Fin 4 → ℤ
  | 0 => -10
  | 1 => 2
  | 2 => -1
  | 3 => 0

/-- C5: for every pair of final scores exactly one of the four outcome
branches fires, and the firing branch returns the claimed reward: player
bust gives -10, else dealer bust or higher player score gives +2, else a
lower player score gives -1, else (exact tie) 0. -/
theorem C5_reward_branches (p d : ℕ) :
    (∃! i : Fin 4, rewardBranch i p d) ∧
    ∀ i : Fin 4, rewardBranch i p d → (get_winner_scores p d).1 = branchReward i := by
  constructor
  · by_cases h0 : 21 < p
    · refine ⟨0, h0, fun j hj => ?_⟩
      fin_cases j <;> simp_all [rewardBranch] <;> omega
    · by_cases h1 : 21 < d ∨ d < p
      · refine ⟨1, ⟨by omega, h1⟩, fun j hj => ?_⟩
        fin_cases j <;> simp_all [rewardBranch] <;> omega
      · by_cases h2 : p < d
        · refine ⟨2, ⟨by omega, by omega, by omega, h2⟩, fun j hj => ?_⟩
          fin_cases j <;> simp_all [rewardBranch] <;> omega
        · refine ⟨3, ⟨by omega, by omega, by omega, h2⟩, fun j hj => ?_⟩
          fin_cases j <;> simp_all [rewardBranch] <;> omega
  · intro i hi
    fin_cases i
    · simp only [rewardBranch] at hi
      simp [get_winner_scores, branchReward, hi]
    · obtain ⟨hp, hw⟩ := hi
      have hnp : ¬21 < p := by omega
      simp [get_winner_scores, branchReward, hnp, hw]
    · obtain ⟨hp, hd, hpd, hlt⟩ := hi
      have hnp : ¬21 < p := by omega
      have hn1 : ¬(21 < d ∨ d < p) := by omega
      simp [get_winner_scores, branchReward, hnp, hn1, hlt]
    · obtain ⟨hp, hd, hpd, hnlt⟩ := hi
      have hnp : ¬21 < p := by omega
      have hn1 : ¬(21 < d ∨ d < p) := by omega
      simp [get_winner_scores, branchReward, hnp, hn1, hnlt]

/-- A sequence of action-selection calls: fold `ai_decision` over a list of
(random.random draw, random.choice draw) pairs.  This is the succession of
`ai_decision` calls the driver makes; the game moves between them do not
touch epsilon (see C7). -/
def run_decisions (g : Blackjack) : List (ℚ × Fin 2) → Blackjack
  | [] => g
  | (r, c) :: rest => run_decisions (g.ai_decision r c).2 rest

theorem run_decisions_epsilon (g : Blackjack) (l : List (ℚ × Fin 2)) :
    (run_decisions g l).epsilon = g.epsilon * (199 / 200 : ℚ) ^ l.length := by
  induction l generalizing g with
  | nil => simp [run_decisions]
  | cons rc rest ih =>
    obtain ⟨r, c⟩ := rc
    rw [run_decisions, ih, (ai_decision_fields g r c).2.2.2.2.2.2.2.2]
    rw [List.length_cons, pow_succ]
    ring

/-- C7: epsilon is multiplied by 0.995 exactly once per `ai_decision` call,
whatever random draw and branch occurred, and is untouched by the hit and
dealer moves; hence starting from epsilon = 1 it equals 0.995^N (exactly,
in exact rational arithmetic) after N selection calls. -/
theorem C7_epsilon_decay (g : Blackjack) (l : List (ℚ × Fin 2))
    (h1 : g.epsilon = 1) :
    (run_decisions g l).epsilon = (199 / 200 : ℚ) ^ l.length ∧
    (∀ (g' : Blackjack) (r : ℚ) (c : Fin 2),
      (g'.ai_decision r c).2.epsilon = g'.epsilon * (199 / 200)) ∧
    (∀ g' : Blackjack, g'.player_hit.epsilon = g'.epsilon) ∧
    (∀ g' : Blackjack, g'.dealer_turn.epsilon = g'.epsilon) := by
  refine ⟨?_, fun g' r c => (ai_decision_fields g' r c).2.2.2.2.2.2.2.2,
    fun g' => (player_hit_fields g').2.2.2.2.1,
    fun g' => (dealer_turn_spec g').2.2.2.2.2⟩
  rw [run_decisions_epsilon, h1, one_mul]

/-- Witness for C7: the decay law applied to the concrete fresh game
(epsilon 1) over two selection calls. -/
theorem C7_epsilon_decay_witness :
    (run_decisions cexG0 [(0, 0), (1, 1)]).epsilon
      = (199 / 200 : ℚ) ^ ([((0 : ℚ), (0 : Fin 2)), (1, 1)] : List (ℚ × Fin 2)).length ∧
    (∀ (g' : Blackjack) (r : ℚ) (c : Fin 2),
      (g'.ai_decision r c).2.epsilon = g'.epsilon * (199 / 200)) ∧
    (∀ g' : Blackjack, g'.player_hit.epsilon = g'.epsilon) ∧
    (∀ g' : Blackjack, g'.dealer_turn.epsilon = g'.epsilon) :=
  C7_epsilon_decay cexG0 [(0, 0), (1, 1)] rfl

/-- C8: with epsilon 0 and a nonnegative random draw (random.random() is
always in [0,1)), selection is deterministic and greedy: Q-values (5,3)
give Hit (0), (3,5) give Stand (1), and an exact tie gives Hit, because
np.argmax returns the first maximal index. -/
theorem C8_greedy_when_epsilon_zero (g : Blackjack) (r : ℚ) (c : Fin 2)
    (he : g.epsilon = 0) (hr : 0 ≤ r) :
    (qlookup g.compute_state g.q_table = some (5, 3) → (g.ai_decision r c).1 = 0) ∧
    (qlookup g.compute_state g.q_table = some (3, 5) → (g.ai_decision r c).1 = 1) ∧
    (∀ q : ℚ, qlookup g.compute_state g.q_table = some (q, q) →
      (g.ai_decision r c).1 = 0) := by
  have hnr : ¬r < g.epsilon := by
    rw [he]
    exact not_lt.mpr hr
  refine ⟨fun h => ?_, fun h => ?_, fun q h => ?_⟩
  · simp only [Blackjack.ai_decision, h, if_neg hnr]
    norm_num
  · simp only [Blackjack.ai_decision, h, if_neg hnr]
    norm_num
  · simp only [Blackjack.ai_decision, h, if_neg hnr]
    simp

/-- A game whose epsilon is 0 and whose Q-table holds the values (5,3) at
its own current state (empty hands: state (0, None, false)). -/
def cexC8 : Blackjack :=
  { cexG0 with
    epsilon := 0
    q_table := [(((0 : ℕ), (none : Option Rank), false), ((5 : ℚ), (3 : ℚ)))] }

/-- Witness for C8: on the concrete zero-epsilon game with Q-values (5,3),
selection returns Hit. -/
theorem C8_greedy_when_epsilon_zero_witness : (cexC8.ai_decision 0 1).1 = 0 :=
  (C8_greedy_when_epsilon_zero cexC8 0 1 rfl le_rfl).1 rfl

/-- C9: when the prior state is present in the table, the TD update touches
only the (priorState, action) component: the other action's value at that
state keeps its old value, every other state's entry is unchanged, the set
of keys is unchanged, and an absent nextState (whose values are read as the
default (0,0) for the max-future term) is NOT inserted. -/
theorem C9_update_frame (g : Blackjack) (s : GState) (a : Fin 2) (rw : ℚ)
    (ns : GState) (qv : ℚ × ℚ) (hs : qlookup s g.q_table = some qv) :
    ∃ g', g.update_q_value s a rw ns = some g' ∧
      (∀ t, t ≠ s → qlookup t g'.q_table = qlookup t g.q_table) ∧
      (a = 0 → ∃ x, qlookup s g'.q_table = some (x, qv.2)) ∧
      (a = 1 → ∃ x, qlookup s g'.q_table = some (qv.1, x)) ∧
      (∀ t, (qlookup t g'.q_table).isSome = (qlookup t g.q_table).isSome) ∧
      (qlookup ns g.q_table = none → qlookup ns g'.q_table = none) := by
  obtain ⟨g', hg', hp, hd, hu⟩ := update_q_value_some g s a rw ns (by rw [hs]; rfl)
  have hqt : g'.q_table = qset s
      (if a = 0
        then ((if a = 0 then qv.1 else qv.2) + g.alpha * (rw + g.gamma *
          max ((qlookup ns g.q_table).getD (0, 0)).1 ((qlookup ns g.q_table).getD (0, 0)).2
          - if a = 0 then qv.1 else qv.2), qv.2)
        else (qv.1, (if a = 0 then qv.1 else qv.2) + g.alpha * (rw + g.gamma *
          max ((qlookup ns g.q_table).getD (0, 0)).1 ((qlookup ns g.q_table).getD (0, 0)).2
          - if a = 0 then qv.1 else qv.2))) g.q_table := by
    have := hg'
    simp only [Blackjack.update_q_value, hs] at this
    cases this
    rfl
  refine ⟨g', hg', ?_, ?_, ?_, ?_, ?_⟩
  · intro t ht
    rw [hqt, qlookup_qset_ne s t _ g.q_table ht]
  · intro ha
    subst ha
    rw [hqt, qlookup_qset_self s _ g.q_table (by rw [hs]; rfl)]
    simp
  · intro ha
    subst ha
    rw [hqt, qlookup_qset_self s _ g.q_table (by rw [hs]; rfl)]
    norm_num
  · intro t
    rw [hqt, qlookup_qset_isSome]
  · intro hns
    have hts : ns ≠ s := by
      intro hh
      rw [hh, hs] at hns
      exact Option.noConfusion hns
    rw [hqt, qlookup_qset_ne s ns _ g.q_table hts, hns]

/-- A game whose Q-table holds exactly one entry, at state (0, None, false),
with values (1,2). -/
def cexC9 : Blackjack :=
  { cexG0 with
    q_table := [(((0 : ℕ), (none : Option Rank), false), ((1 : ℚ), (2 : ℚ)))] }

/-- Witness for C9: the frame theorem applied to the concrete one-entry
table, updating action Hit at the present state with an absent next state. -/
theorem C9_update_frame_witness :
    ∃ g', cexC9.update_q_value ((0 : ℕ), (none : Option Rank), false) 0 1
        ((5 : ℕ), (none : Option Rank), false) = some g' ∧
      (∀ t, t ≠ ((0 : ℕ), (none : Option Rank), false) →
        qlookup t g'.q_table = qlookup t cexC9.q_table) ∧
      ((0 : Fin 2) = 0 → ∃ x, qlookup ((0 : ℕ), (none : Option Rank), false) g'.q_table
        = some (x, (2 : ℚ))) ∧
      ((0 : Fin 2) = 1 → ∃ x, qlookup ((0 : ℕ), (none : Option Rank), false) g'.q_table
        = some ((1 : ℚ), x)) ∧
      (∀ t, (qlookup t g'.q_table).isSome = (qlookup t cexC9.q_table).isSome) ∧
      (qlookup ((5 : ℕ), (none : Option Rank), false) cexC9.q_table = none →
        qlookup ((5 : ℕ), (none : Option Rank), false) g'.q_table = none) :=
  C9_update_frame cexC9 ((0 : ℕ), (none : Option Rank), false) 0 1
    ((5 : ℕ), (none : Option Rank), false) (1, 2) rfl
